import Mathlib

/-!
Verification development for the `earthfile` manager of the renovate
repository (`src/lib/modules/manager/earthfile/index.ts`).

The TypeScript source is embedded shallowly: strings are Lean `String`s
(manipulated through their `List Char` data), the JavaScript regexes of the
source are encoded as explicit pattern ASTs executed by a small backtracking
matcher with ECMAScript semantics (leftmost match, ordered alternation,
greedy/lazy quantifiers, the empty-iteration break rule, multiline anchors),
and the one runtime TypeError the code can hit (indexing past the end of the
`lines` array and calling `.includes` on `undefined`) is modelled with
`Except Unit`.
-/

namespace Earthfile

/-! ## Character classes (ECMAScript definitions) -/

/-- ECMAScript WhiteSpace ∪ LineTerminator, the set matched by `\s` and
removed by `String.prototype.trim`. -/
def isJsWhitespace (c : Char) : Bool :=
  c = ' ' || c = '\t' || c = '\n' || c = '\r' ||
  c = '\x0b' || c = '\x0c' ||
  c = '\u00A0' || c = '\u1680' ||
  ('\u2000' ≤ c && c ≤ '\u200A') ||
  c = '\u2028' || c = '\u2029' || c = '\u202F' || c = '\u205F' ||
  c = '\u3000' || c = '\uFEFF'

/-- ECMAScript LineTerminator: the positions recognised by multiline `^`/`$`
and excluded by `.`. -/
def isLineTerm (c : Char) : Bool :=
  c = '\n' || c = '\r' || c = '\u2028' || c = '\u2029'

/-- `\w`: ASCII letters, digits and underscore. -/
def isWordChar (c : Char) : Bool :=
  ('a' ≤ c && c ≤ 'z') || ('A' ≤ c && c ≤ 'Z') || ('0' ≤ c && c ≤ '9') || c = '_'

def isSpaceTab (c : Char) : Bool := c = ' ' || c = '\t'

/-- `[^\s\+]`: the image-token class used by the source's capture groups. -/
def isImageChar (c : Char) : Bool := !isJsWhitespace c && c ≠ '+'

/-! ## List-of-characters string helpers (JS string method semantics) -/

/-- Leftmost index at which `pat` occurs in `l` (JS `String.prototype.indexOf`
with a string argument; the empty pattern occurs at index 0). -/
def indexOfSub (l pat : List Char) : Option Nat :=
  go l 0
where
  go : List Char → Nat → Option Nat
    | [], i => if pat = [] then some i else none
    | c :: rest, i =>
      if pat.isPrefixOf (c :: rest) then some i
      else go rest (i + 1)

/-- JS `s.includes(pat)` for strings. -/
def containsSub (l pat : List Char) : Bool := (indexOfSub l pat).isSome

/-- ECMAScript `GetSubstitution` for a string search pattern (no capture
groups): expands `$$`, `$&`, `` $` `` and `$'` in the replacement text;
everything else — including `$<` and `$digit` — stays literal. -/
def expandRepl (matched before after : List Char) : List Char → List Char
  | [] => []
  | '$' :: '$' :: rest => '$' :: expandRepl matched before after rest
  | '$' :: '&' :: rest => matched ++ expandRepl matched before after rest
  | '$' :: '`' :: rest => before ++ expandRepl matched before after rest
  | '$' :: '\'' :: rest => after ++ expandRepl matched before after rest
  | c :: rest => c :: expandRepl matched before after rest

/-- JS `s.replace(pat, repl)` with a *string* pattern: replaces only the
first occurrence, applying `GetSubstitution` to the replacement. -/
def replaceFirstL (l pat repl : List Char) : List Char :=
  match indexOfSub l pat with
  | none => l
  | some i =>
    let before := l.take i
    let after := l.drop (i + pat.length)
    before ++ expandRepl pat before after repl ++ after

/-- JS `s.split(sep)` with a nonempty single-character string separator. -/
def splitOnChar (sep : Char) : List Char → List (List Char)
  | [] => [[]]
  | c :: rest =>
    let r := splitOnChar sep rest
    if c = sep then [] :: r
    else match r with
      | [] => [[c]]
      | h :: t => (c :: h) :: t

def intercalateL (sep : List Char) : List (List Char) → List Char
  | [] => []
  | [x] => x
  | x :: xs => x ++ sep ++ intercalateL sep xs

/-! String-level wrappers. -/

def strContains (s : String) (c : Char) : Bool := s.data.any (· = c)

def strContainsSub (s pat : String) : Bool := containsSub s.data pat.data

/-- JS `s.replace(pat, repl)` with a string pattern (first occurrence). -/
def jsReplaceFirst (s pat repl : String) : String :=
  ⟨replaceFirstL s.data pat.data repl.data⟩

def jsSplitChar (s : String) (sep : Char) : List String :=
  (splitOnChar sep s.data).map (⟨·⟩)

/-- JS `s.trimStart()`. -/
def jsTrimStart (s : String) : String := ⟨s.data.dropWhile isJsWhitespace⟩

/-- `is.emptyStringOrWhitespace` from the `is` library: the empty string or a
string of only whitespace characters. -/
def jsIsEmptyOrWhitespace (s : String) : Bool := s.data.all isJsWhitespace

/-- JS truthiness of an optional string: present and nonempty. -/
def truthy : Option String → Bool
  | some s => !s.isEmpty
  | none => false

/-! ## A small ECMAScript-semantics backtracking regex matcher

Patterns are explicit ASTs; `matchRE` is a continuation-passing backtracking
matcher over a remaining-input list. A fuel argument bounds the call depth
(every iteration of a starred body must consume input, so the depth is
bounded; the fuel passed by the entry points below is always sufficient for
the inputs of this development). -/

inductive RE where
  | eps
  | cls (p : Char → Bool)
  | seq (a b : RE)
  | alt (a b : RE)
  /-- `lazy = false` is greedy `*`; `lazy = true` is `*?`. Iterations that
  consume no input terminate the loop (ECMAScript RepeatMatcher). -/
  | star (lazy : Bool) (a : RE)
  | group (i : Nat) (a : RE)
  /-- Multiline `^`: start of input or just after a LineTerminator. -/
  | lineStart
  /-- Multiline `$`: end of input or just before a LineTerminator. -/
  | lineEnd

/-- Matcher state: remaining input and the previously consumed character
(for the multiline `^` anchor). -/
structure MState where
  rem : List Char
  prev : Option Char

abbrev Caps := List (Nat × List Char)

def atLineStart (st : MState) : Bool :=
  match st.prev with
  | none => true
  | some c => isLineTerm c

def atLineEnd (st : MState) : Bool :=
  match st.rem with
  | [] => true
  | c :: _ => isLineTerm c

def matchRE (fuel : Nat) (re : RE) (st : MState) (caps : Caps)
    (k : MState → Caps → Option (MState × Caps)) : Option (MState × Caps) :=
  match fuel with
  | 0 => none
  | fuel + 1 =>
    match re with
    | .eps => k st caps
    | .cls p =>
      match st.rem with
      | [] => none
      | c :: rest => if p c then k ⟨rest, some c⟩ caps else none
    | .seq a b =>
      matchRE fuel a st caps (fun st' caps' => matchRE fuel b st' caps' k)
    | .alt a b =>
      match matchRE fuel a st caps k with
      | some r => some r
      | none => matchRE fuel b st caps k
    | .star lazy a =>
      if lazy then
        match k st caps with
        | some r => some r
        | none =>
          matchRE fuel a st caps (fun st' caps' =>
            if st'.rem.length = st.rem.length then none
            else matchRE fuel (.star true a) st' caps' k)
      else
        match matchRE fuel a st caps (fun st' caps' =>
            if st'.rem.length = st.rem.length then none
            else matchRE fuel (.star false a) st' caps' k) with
        | some r => some r
        | none => k st caps
    | .group i a =>
      matchRE fuel a st caps (fun st' caps' =>
        let consumed := st.rem.length - st'.rem.length
        k st' ((i, st.rem.take consumed) :: caps'))
    | .lineStart => if atLineStart st then k st caps else none
    | .lineEnd => if atLineEnd st then k st caps else none

/-- Result of a successful search: captured groups, the full match, and the
state just after the match (for global loops). -/
structure MatchResult where
  caps : Caps
  matched : List Char
  after : MState

def reFuel (st : MState) : Nat := 2000 + 200 * st.rem.length

/-- Leftmost search: try to match at each successive position (fuel is the
number of start positions left to try; structural so that proofs can reduce
it definitionally). -/
def searchFromAux (re : RE) : Nat → MState → Option MatchResult
  | 0, _ => none
  | fuel + 1, st =>
    match matchRE (reFuel st) re st [] (fun st' caps => some (st', caps)) with
    | some (st', caps) =>
      some ⟨caps, st.rem.take (st.rem.length - st'.rem.length), st'⟩
    | none =>
      match st.rem with
      | [] => none
      | c :: rest => searchFromAux re fuel ⟨rest, some c⟩

def searchFrom (re : RE) (st : MState) : Option MatchResult :=
  searchFromAux re (st.rem.length + 1) st

def reSearch (re : RE) (s : String) : Option MatchResult :=
  searchFrom re ⟨s.data, none⟩

def reTest (re : RE) (s : String) : Bool := (reSearch re s).isSome

/-- Capture group `i` of a match result, as a string. -/
def capGet (m : MatchResult) (i : Nat) : Option String :=
  (m.caps.lookup i).map (⟨·⟩)

/-- Global-flag exec loop: collect every successive match (as used by the
`do … while` loops of the source). Matches of the regexes so looped are
never empty, so the scan advances; fuel bounds the iterations. -/
def reGlobal (re : RE) (s : String) : List MatchResult :=
  go (s.data.length + 1) ⟨s.data, none⟩
where
  go : Nat → MState → List MatchResult
    | 0, _ => []
    | fuel + 1, st =>
      match searchFrom re st with
      | none => []
      | some m =>
        if m.after.rem.length < st.rem.length then m :: go fuel m.after
        else [m]

/-! Pattern-building helpers. -/

def REstr (s : String) : RE :=
  s.data.foldr (fun c acc => RE.seq (.cls (· = c)) acc) .eps

/-- Case-insensitive literal (the source regexes carry the `i` flag). -/
def REistr (s : String) : RE :=
  s.data.foldr (fun c acc => RE.seq (.cls (fun x => x.toLower = c.toLower)) acc) .eps

def REch (c : Char) : RE := .cls (· = c)
def REplus (a : RE) : RE := .seq a (.star false a)
def REplusLazy (a : RE) : RE := .seq a (.star true a)
def REopt (a : RE) : RE := .alt a .eps

/-- Chain `seq` over a list of patterns. -/
def REseq (l : List RE) : RE := l.foldr .seq .eps

/-! ## The source's regexes, encoded

Group indices used for named groups:
0 = `fullvariable` / `target` / `name` / `image`, 1 = `simplearg` / `value`,
2 = `complexarg`. -/

/-- `.` (no `s` flag): any character except a LineTerminator. -/
def REdot : RE := .cls (fun c => !isLineTerm c)

/-- `\r?\n` -/
def REcrlf : RE := .seq (REopt (REch '\r')) (REch '\n')

/-- `\\[ \t]*\r?\n` — an escaped-newline continuation inside an instruction. -/
def REbslashCont : RE := REseq [REch '\\', .star false (.cls isSpaceTab), REcrlf]

/-- `#.*?\r?\n` — an inline comment inside an instruction. -/
def REcommentCont : RE := REseq [REch '#', .star true REdot, REcrlf]

/-- `/\\[ \t]*$|^[ \t]*#/m` — `lineContinuationRegex` (with `escapeChar`
spliced in as a literal backslash). -/
def lineContinuationRE : RE :=
  .alt (REseq [REch '\\', .star false (.cls isSpaceTab), .lineEnd])
       (REseq [.lineStart, .star false (.cls isSpaceTab), REch '#'])

/-- `/^(?<target>\S+?):(?:$|\n|\t|\s)+/im` — `targetRegex`. -/
def targetRE : RE :=
  REseq [.lineStart,
         .group 0 (REplusLazy (.cls (fun c => !isJsWhitespace c))),
         REch ':',
         REplus (.alt .lineEnd (.alt (REch '\n') (.alt (REch '\t') (.cls isJsWhitespace))))]

/-- `argRegex`:
`/^[ \t]*(?:ARG|LET|SET)(?:\\[ \t]*\r?\n| |--global|\t|#.*?\r?\n)+(?<name>\w+)[ =](?<value>[^\s\+]*)/im`. -/
def argRE : RE :=
  REseq [.lineStart,
         .star false (.cls isSpaceTab),
         .alt (REistr "ARG") (.alt (REistr "LET") (REistr "SET")),
         REplus (.alt REbslashCont
                 (.alt (REch ' ')
                 (.alt (REistr "--global")
                 (.alt (REch '\t') REcommentCont)))),
         .group 0 (REplus (.cls isWordChar)),
         .cls (fun c => c = ' ' || c = '='),
         .group 1 (.star false (.cls isImageChar))]

/-- `/^[ \t]*WITH DOCKER/im` — `withDockerRegex`. -/
def withDockerRE : RE :=
  REseq [.lineStart, .star false (.cls isSpaceTab), REistr "WITH DOCKER"]

/-- `imageRegex` (flags `gim`): `--pull(?:\s+|\s*=\s*)(?<image>[^\s\+]+)`. -/
def pullImageRE : RE :=
  REseq [REistr "--pull",
         .alt (REplus (.cls isJsWhitespace))
              (REseq [.star false (.cls isJsWhitespace), REch '=',
                      .star false (.cls isJsWhitespace)]),
         .group 0 (REplus (.cls isImageChar))]

/-- `fromRegex`:
`/^[ \t]*FROM(?:\\[ \t]*\r?\n| |\t|#.*?\r?\n|--platform=\S+|--allow-privileged)+(?<image>[^\s\+]+)(?:(?:\\[ \t]*\r?\n| |\t|#.*?\r?\n|--\S+=\S+)+)?/im`. -/
def fromRE : RE :=
  REseq [.lineStart,
         .star false (.cls isSpaceTab),
         REistr "FROM",
         REplus (.alt REbslashCont
                 (.alt (REch ' ')
                 (.alt (REch '\t')
                 (.alt REcommentCont
                 (.alt (REseq [REistr "--platform=", REplus (.cls (fun c => !isJsWhitespace c))])
                       (REistr "--allow-privileged")))))),
         .group 0 (REplus (.cls isImageChar)),
         REopt (REplus (.alt REbslashCont
                        (.alt (REch ' ')
                        (.alt (REch '\t')
                        (.alt REcommentCont
                              (REseq [REistr "--",
                                      REplus (.cls (fun c => !isJsWhitespace c)),
                                      REch '=',
                                      REplus (.cls (fun c => !isJsWhitespace c))]))))))]

/-- `variableRegex` from `extractVariables`:
`/(?<fullvariable>\\?\$(?<simplearg>\w+)|\\?\${(?<complexarg>\w+)(?::.+?)?}+)/gi`. -/
def variableRE : RE :=
  .group 0 (.alt
    (REseq [REopt (REch '\\'), REch '$', .group 1 (REplus (.cls isWordChar))])
    (REseq [REopt (REch '\\'), REch '$', REch '{',
            .group 2 (REplus (.cls isWordChar)),
            REopt (REseq [REch ':', REplusLazy REdot]),
            REplus (REch '}')]))

/-! ## Data model -/

/-- Modelled from the spec: the image-registry datasource is addressed only by
a stable identifier string (`DockerDatasource.id`; the datasource module is
not under `src/`). -/
def dockerDatasourceId : String := "docker"

/-- Modelled from the spec: the ubuntu versioning scheme's stable identifier
(`ubuntuVersioning.id`; module not under `src/`). -/
def ubuntuVersioningId : String := "ubuntu"

/-- Modelled from the spec: the debian versioning scheme's stable identifier
(`debianVersioning.id`; module not under `src/`). -/
def debianVersioningId : String := "debian"

/-- Modelled from the spec: `debianVersioning.api.isVersion`, the one debian
predicate the system calls (module not under `src/`). Its value only selects
the `versioning` field, which no claim below depends on, so it is modelled as
the constantly-false predicate. -/
def debianIsVersion (_ : Option String) : Bool := false

/-- The `PackageDependency` fields this manager produces. Absent/`undefined`
is `none`; JS falsiness of a present value is `truthy` above. -/
structure PackageDependency where
  depName : Option String := none
  packageName : Option String := none
  currentValue : Option String := none
  currentDigest : Option String := none
  replaceString : Option String := none
  autoReplaceStringTemplate : Option String := none
  datasource : Option String := none
  versioning : Option String := none
  depType : Option String := none
  skipReason : Option String := none
  deriving DecidableEq, Repr

/-- `const variableMarker = '$'`. -/
def variableMarker : Char := '$'

/-! ## `splitImageParts` -/

/-- Tail of `defaultValueRegex` after the `:-`: `"?(?<value>.*?)"?}$` with a
lazy value; at each candidate length the greedy trailing `"?}` is tried with
the quote first. Returns the `value` capture. -/
def dvGo (acc : List Char) : List Char → Option (List Char)
  | [] => none
  | c :: rs =>
    if c = '"' ∧ rs = ['}'] then some acc.reverse
    else if c = '}' ∧ rs = [] then some acc.reverse
    else if isLineTerm c then none
    else dvGo (c :: acc) rs

/-- Leading greedy `"?` of the tail: try consuming a quote first, fall back
to not consuming it. -/
def dvTail (u : List Char) : Option (List Char) :=
  match u with
  | '"' :: u' =>
    match dvGo [] u' with
    | some v => some v
    | none => dvGo [] u
  | _ => dvGo [] u

/-- The lazy `.+?:-` of `defaultValueRegex`: consume at least one
non-LineTerminator character, then at each successive position try `:-`
followed by the tail; on failure keep consuming. -/
def dvLoop : List Char → Option (List Char)
  | [] => none
  | c :: rs =>
    if isLineTerm c then none
    else
      match rs with
      | ':' :: '-' :: rs' =>
        (match dvTail rs' with
         | some v => some v
         | none => dvLoop rs)
      | _ => dvLoop rs

/-- `defaultValueRegex` = `^\${.+?:-"?(?<value>.*?)"?}$` (no flags, so `^`/`$`
anchor the whole input): the `value` capture of the match, if any. -/
def defaultValueMatch (s : String) : Option String :=
  match s.data with
  | '$' :: '{' :: rest => (dvLoop rest).map (⟨·⟩)
  | _ => none

/-- The variable-default unwrap of `splitImageParts` lines 124-131: fires only
when the string contains the marker, the regex matches, and the captured
value is truthy (nonempty). -/
def unwrapDefault (currentFrom : String) : Option String :=
  if strContains currentFrom variableMarker then
    match defaultValueMatch currentFrom with
    | some v => if v.isEmpty then none else some v
    | none => none
  else none

def strStartsWith (s p : String) : Bool := p.data.isPrefixOf s.data

def joinColon (l : List String) : String := ⟨intercalateL [':'] (l.map String.data)⟩

/-- Lines 141-173 of the source, applied to the (possibly unwrapped) string:
destructure `split('@')` into its first two elements, apply the colon rule,
and in the variable case set `replaceString` and delete falsy components. -/
def splitImagePartsTail (isVariable : Bool) (cleaned : String) : PackageDependency :=
  let atParts := jsSplitChar cleaned '@'
  let currentDepTag := atParts.headD ""
  let currentDigest := atParts.get? 1
  let depTagSplit := jsSplitChar currentDepTag ':'
  let dep : PackageDependency :=
    if depTagSplit.length = 1 || strContains (depTagSplit.getLastD "") '/' then
      { depName := some currentDepTag, currentValue := none, currentDigest }
    else
      { depName := some (joinColon depTagSplit.dropLast),
        currentValue := some (depTagSplit.getLastD ""), currentDigest }
  if isVariable then
    { dep with replaceString := some cleaned,
               currentValue := if truthy dep.currentValue then dep.currentValue else none,
               currentDigest := if truthy dep.currentDigest then dep.currentDigest else none }
  else dep

/-- `splitImageParts` (lines 118-174). -/
def splitImageParts (currentFrom : String) : PackageDependency :=
  if strContains currentFrom variableMarker then
    let unwrapped := unwrapDefault currentFrom
    let cleaned := unwrapped.getD currentFrom
    if strContains cleaned variableMarker then
      { skipReason := some "contains-variable" }
    else splitImagePartsTail unwrapped.isSome cleaned
  else splitImagePartsTail false currentFrom

/-! ## `getDep` -/

def newValuePlaceholder : String := "\x7b\x7b#if newValue\x7d\x7d\x7b\x7bnewValue\x7d\x7d\x7b\x7b/if\x7d\x7d"
def newDigestAppendPlaceholder : String := "\x7b\x7b#if newDigest\x7d\x7d@\x7b\x7bnewDigest\x7d\x7d\x7b\x7b/if\x7d\x7d"
def newDigestPlaceholder : String := "\x7b\x7b#if newDigest\x7d\x7d\x7b\x7bnewDigest\x7d\x7d\x7b\x7b/if\x7d\x7d"

/-- `getAutoReplaceTemplate` (lines 46-65): replace the first occurrence of
the (truthy) current value and digest in `replaceString` by placeholders. -/
def getAutoReplaceTemplate (dep : PackageDependency) : Option String :=
  let template := dep.replaceString
  let template :=
    if truthy dep.currentValue then
      let placeholder := newValuePlaceholder ++
        (if !truthy dep.currentDigest then newDigestAppendPlaceholder else "")
      template.map (fun t => jsReplaceFirst t (dep.currentValue.getD "") placeholder)
    else template
  if truthy dep.currentDigest then
    template.map (fun t => jsReplaceFirst t (dep.currentDigest.getD "") newDigestPlaceholder)
  else template

/-- `quayRegex` = `^quay\.io(?::[1-9][0-9]{0,4})?` with flag `i`, anchored, so
implemented as a prefix test; returns the length of the (greedy) match. -/
def quayMatchLen (s : String) : Option Nat :=
  match s.data with
  | q :: u :: a :: y :: d :: i :: o :: rest =>
    if q.toLower = 'q' ∧ u.toLower = 'u' ∧ a.toLower = 'a' ∧ y.toLower = 'y' ∧
       d = '.' ∧ i.toLower = 'i' ∧ o.toLower = 'o' then
      match rest with
      | ':' :: c :: cs =>
        if '1' ≤ c ∧ c ≤ '9' then
          some (9 + ((cs.takeWhile (fun x => decide ('0' ≤ x ∧ x ≤ '9'))).take 4).length)
        else some 7
      | _ => some 7
    else none
  | _ => none

/-- `dep.depName.replace(quayRegex, 'quay.io')`: non-global regex replace of
the anchored match. -/
def quayReplace (s : String) : String :=
  match quayMatchLen s with
  | some n => ⟨"quay.io".data ++ s.data.drop n⟩
  | none => s

/-- One alias entry of the loop at lines 190-203: leftmost match of
`(?<prefix>NAME)/(?<depName>.+)` (the name is `escapeRegExp`-ed in the source,
hence literal; the unanchored search scans every position; greedy `.+` stops
at a LineTerminator and must be nonempty). Returns the `depName` capture. -/
def aliasMatch (name : String) (s : String) : Option String :=
  go (name.data ++ ['/']) s.data
where
  go (pat : List Char) : List Char → Option String
    | [] => none
    | l@(_ :: rest) =>
      if pat.isPrefixOf l then
        let cap := (l.drop pat.length).takeWhile (fun c => !isLineTerm c)
        if cap.isEmpty then go pat rest else some ⟨cap⟩
      else go pat rest

/-- The `for … of Object.entries(registryAliases ?? {})` loop: first entry
whose pattern matches wins; yields the alias value and the `depName` capture. -/
def firstAliasMatch : List (String × String) → String → Option (String × String)
  | [], _ => none
  | (name, value) :: rest, s =>
    match aliasMatch name s with
    | some capture => some (value, capture)
    | none => firstAliasMatch rest s

def defaultAutoReplaceTemplate : String :=
  "\x7b\x7bdepName\x7d\x7d\x7b\x7b#if newValue\x7d\x7d:\x7b\x7bnewValue\x7d\x7d\x7b\x7b/if\x7d\x7d\x7b\x7b#if newDigest\x7d\x7d@\x7b\x7bnewDigest\x7d\x7d\x7b\x7b/if\x7d\x7d"
def packageAutoReplaceTemplate : String :=
  "\x7b\x7bpackageName\x7d\x7d\x7b\x7b#if newValue\x7d\x7d:\x7b\x7bnewValue\x7d\x7d\x7b\x7b/if\x7d\x7d\x7b\x7b#if newDigest\x7d\x7d@\x7b\x7bnewDigest\x7d\x7d\x7b\x7b/if\x7d\x7d"

def specialPrefixes : List String := ["amd64", "arm64", "library"]

/-- Lines 206-212: the `replaceString`/template defaults applied when
`specifyReplaceString` is set. -/
def applyReplaceDefaults (currentFrom : String) (srs : Bool)
    (dep : PackageDependency) : PackageDependency :=
  if srs then
    let dep := if truthy dep.replaceString then dep
               else { dep with replaceString := some currentFrom }
    { dep with autoReplaceStringTemplate := some defaultAutoReplaceTemplate }
  else dep

/-- Lines 218-227: one iteration of the special-prefix loop. -/
def specialPrefixStep (srs : Bool) (d : PackageDependency) (pfx : String) :
    PackageDependency :=
  if strStartsWith (d.depName.getD "") (pfx ++ "/") then
    let d := { d with packageName := d.depName,
                      depName := some (jsReplaceFirst (d.depName.getD "") (pfx ++ "/") "") }
    if srs then { d with autoReplaceStringTemplate := some packageAutoReplaceTemplate }
    else d
  else d

/-- Lines 216-228: the special-prefix loop, guarded by `if (dep.depName)`. -/
def applySpecialPrefixes (srs : Bool) (dep : PackageDependency) : PackageDependency :=
  if truthy dep.depName then specialPrefixes.foldl (specialPrefixStep srs) dep
  else dep

/-- Lines 230-239: the ubuntu and debian versioning-scheme assignments. -/
def applyVersioning (dep : PackageDependency) : PackageDependency :=
  let dep := if dep.depName = some "ubuntu" then
      { dep with versioning := some ubuntuVersioningId } else dep
  if dep.depName = some "debian" ∧ debianIsVersion dep.currentValue then
    { dep with versioning := some debianVersioningId } else dep

/-- Lines 241-250: the quay.io port normalization. -/
def applyQuay (dep : PackageDependency) : PackageDependency :=
  if truthy dep.depName ∧ (quayMatchLen (dep.depName.getD "")).isSome then
    let newName := quayReplace (dep.depName.getD "")
    if newName ≠ dep.depName.getD "" then
      { dep with packageName := dep.depName, depName := some newName,
                 autoReplaceStringTemplate := some packageAutoReplaceTemplate }
    else dep
  else dep

/-- Lines 205-252 of `getDep`: everything after the alias loop. -/
def getDepRest (currentFrom : String) (srs : Bool) : PackageDependency :=
  let dep := splitImageParts currentFrom
  let dep := applyReplaceDefaults currentFrom srs dep
  let dep := { dep with datasource := some dockerDatasourceId }
  let dep := applySpecialPrefixes srs dep
  applyQuay (applyVersioning dep)

/-- `getDep` with no alias table (the recursive call at line 197 passes no
`registryAliases`, so its alias loop is vacuous). -/
def getDepNoAlias (currentFrom : String) (srs : Bool) : PackageDependency :=
  if jsIsEmptyOrWhitespace currentFrom then { skipReason := some "invalid-value" }
  else getDepRest currentFrom srs

/-- `getDep` (lines 178-253). -/
def getDep (currentFrom : String) (srs : Bool)
    (registryAliases : List (String × String)) : PackageDependency :=
  if jsIsEmptyOrWhitespace currentFrom then { skipReason := some "invalid-value" }
  else
    match firstAliasMatch registryAliases currentFrom with
    | some (value, capture) =>
      let dep := { getDepNoAlias (value ++ "/" ++ capture) true with
                   replaceString := some currentFrom }
      { dep with autoReplaceStringTemplate := getAutoReplaceTemplate dep }
    | none => getDepRest currentFrom srs

/-! ## `processDepForAutoReplace` -/

/-- The per-line membership test of lines 76-81 with JS short-circuiting:
evaluating `lines[lineNumber].includes(...)` with `lineNumber` out of bounds
is a TypeError on `undefined`, modelled as `Except.error ()`. The test on the
digest is only evaluated when the value test did not already succeed. -/
def lineMatches (lines : List String) (cv cd : Option String) (ln : Nat) :
    Except Unit Bool := do
  let first ← match cv with
    | some v =>
      match lines.get? ln with
      | some line => pure (strContainsSub line v)
      | none => Except.error ()
    | none => pure false
  if first then pure true
  else
    match cd with
    | some d =>
      match lines.get? ln with
      | some line => pure (strContainsSub line d)
      | none => Except.error ()
    | none => pure false

/-- Lines 74-85: for each range, iterate over its two stored line numbers and
push the range once per matching line number. -/
def collectRanges (lines : List String) (cv cd : Option String) :
    List (Nat × Nat) → Except Unit (List (Nat × Nat))
  | [] => pure []
  | (a, b) :: rest => do
    let m1 ← lineMatches lines cv cd a
    let m2 ← lineMatches lines cv cd b
    let r ← collectRanges lines cv cd rest
    pure ((if m1 then [(a, b)] else []) ++ (if m2 then [(a, b)] else []) ++ r)

/-- Stable insertion: place `x` before the first element with a strictly
larger first component (JS `Array.prototype.sort` is stable and the
comparator is `a[0] - b[0]`). -/
def insertByFst (x : Nat × Nat) : List (Nat × Nat) → List (Nat × Nat)
  | [] => [x]
  | y :: ys => if y.1 < x.1 then y :: insertByFst x ys else x :: y :: ys

def sortByFst (l : List (Nat × Nat)) : List (Nat × Nat) := l.foldr insertByFst []

/-- `processDepForAutoReplace` (lines 67-116). -/
def processDepForAutoReplace (dep : PackageDependency)
    (lineNumberRanges : List (Nat × Nat)) (lines : List String)
    (linefeed : String) : Except Unit PackageDependency := do
  let toReplace ← collectRanges lines dep.currentValue dep.currentDigest lineNumberRanges
  let sorted := sortByFst toReplace
  match sorted.head?.map (·.1), sorted.getLast?.map (·.2) with
  | some minLine, some maxLine =>
    if lineNumberRanges.length = 1 then pure dep
    else
      let unfolded := (List.range (maxLine + 1 - minLine)).map (· + minLine)
      let rs : String :=
        ⟨intercalateL linefeed.data
          (unfolded.map (fun ln => ((lines.get? ln).getD "").data))⟩
      let rs := if !truthy dep.currentDigest then rs ++ linefeed else rs
      let dep := { dep with replaceString := some rs }
      pure { dep with autoReplaceStringTemplate := getAutoReplaceTemplate dep }
  | _, _ => pure dep

/-! ## `extractPackageFile` -/

/-- `content.split(newlineRegex)` where `newlineRegex` is an `\r?\n` split. -/
def splitLines (content : String) : List String :=
  go [] content.data
where
  go (acc : List Char) : List Char → List String
    | [] => [⟨acc.reverse⟩]
    | '\r' :: '\n' :: rest => ⟨acc.reverse⟩ :: go [] rest
    | '\n' :: rest => ⟨acc.reverse⟩ :: go [] rest
    | c :: rest => go (c :: acc) rest

/-- `extractVariables` (lines 28-44): the global exec loop over
`variableRegex`, collecting `fullvariable → simplearg || complexarg` in a
`Record` (first-insertion order, duplicate keys collapse). -/
def extractVariables (image : String) : List (String × String) :=
  (reGlobal variableRE image).foldl (fun acc m =>
    let full := (capGet m 0).getD ""
    let argName :=
      match capGet m 1 with
      | some s => if s.isEmpty then (capGet m 2).getD "" else s
      | none => (capGet m 2).getD ""
    if full.isEmpty then acc
    else if acc.any (fun p => p.1 = full) then acc
    else acc ++ [(full, argName)]) []

def lookupStr {α : Type} : List (String × α) → String → Option α
  | [], _ => none
  | (k, v) :: rest, key => if k = key then some v else lookupStr rest key

/-- Lines 344-355: substitute each distinct extracted variable token whose
name has a declaration (JS `replace`: first occurrence only), collecting the
declaration line ranges after the instruction's own range. -/
def resolveImage (args : List (String × String))
    (argsLines : List (String × (Nat × Nat))) (r : Nat × Nat) (image : String) :
    String × List (Nat × Nat) :=
  if strContains image variableMarker then
    (extractVariables image).foldl (fun acc p =>
      match lookupStr args p.2 with
      | some v => (jsReplaceFirst acc.1 p.1 v,
                   acc.2 ++ [(lookupStr argsLines p.2).getD (0, 0)])
      | none => acc) (image, [r])
  else (image, [r])

/-- The mutable scan state of the `extractPackageFile` loop. The `args` and
`argsLines` tables are most-recent-first (later declarations shadow earlier
ones, as JS object assignment does for lookups). -/
structure ScanState where
  args : List (String × String) := []
  argsLines : List (String × (Nat × Nat)) := []
  currentTarget : String := "base"
  deps : List PackageDependency := []

structure ExtractConfig where
  registryAliases : List (String × String) := []

/-- The continuation-folding inner `while` of lines 274-282: extend the
instruction while it does not start (after trimming) with `#`, the lookahead
is not a target header, and the lookahead matches the continuation pattern.
`lines[++lineNumber] || ''` reads past the end as `''`. -/
def foldInstruction (lines : List String) : Nat → Nat → String → String → String × Nat
  | 0, ln, instr, _ => (instr, ln)
  | fuel + 1, ln, instr, lookahead =>
    if !strStartsWith (jsTrimStart instr) "#" &&
       !reTest targetRE lookahead && reTest lineContinuationRE lookahead then
      let ln' := ln + 1
      let la' := (lines.get? ln').getD ""
      foldInstruction lines fuel ln' (instr ++ "\n" ++ la') la'
    else (instr, ln)

/-- `if (!dep.depType) dep.depType = currentTarget` (lines 362-364). -/
def depTypeFill (dep : PackageDependency) (target : String) : PackageDependency :=
  if !truthy dep.depType then { dep with depType := some target } else dep

/-- Lines 341-375: resolve one captured image string, drop the `scratch`
pseudo-image silently, otherwise build and post-process the dependency. -/
def processImage (cfg : ExtractConfig) (lines : List String) (lineFeed : String)
    (st : ScanState) (r : Nat × Nat) (image : String) :
    Except Unit (List PackageDependency) := do
  let resolved := resolveImage st.args st.argsLines r image
  if resolved.1 = "scratch" then pure []
  else
    let dep := getDep resolved.1 true cfg.registryAliases
    let dep ← processDepForAutoReplace dep resolved.2 lines lineFeed
    pure [depTypeFill dep st.currentTarget]

/-- One iteration of the outer `for` loop (lines 268-377): fold the
instruction, update the target cursor and the `args` tables, collect the
`--pull` and `FROM` image captures, and process each image. Returns the
state and the line number the loop will increment past. -/
def scanStep (cfg : ExtractConfig) (lines : List String) (lineFeed : String)
    (st : ScanState) (startLn : Nat) : Except Unit (ScanState × Nat) := do
  let instruction0 := (lines.get? startLn).getD ""
  let folded := foldInstruction lines (lines.length + 1) startLn instruction0 instruction0
  let instruction := folded.1
  let endLn := folded.2
  let st :=
    match (reSearch targetRE instruction).bind (fun m => capGet m 0) with
    | some t => if t.isEmpty then st else { st with currentTarget := t }
    | none => st
  let st :=
    match (reSearch argRE instruction) with
    | some m =>
      match capGet m 0 with
      | some nm =>
        if nm.isEmpty then st
        else
          let value := (capGet m 1).getD ""
          let value :=
            if value.data.head? = some '"' ∧ value.data.getLast? = some '"' then
              ⟨(value.data.drop 1).dropLast⟩
            else value
          { st with args := (nm, value) :: st.args,
                    argsLines := (nm, (startLn, endLn)) :: st.argsLines }
      | none => st
    | none => st
  let images : List String :=
    if reTest withDockerRE instruction then
      (reGlobal pullImageRE instruction).foldl (fun acc m =>
        match capGet m 0 with
        | some img => if img.isEmpty then acc else acc ++ [img]
        | none => acc) []
    else []
  let images :=
    match (reSearch fromRE instruction).bind (fun m => capGet m 0) with
    | some img => if img.isEmpty then images else images ++ [img]
    | none => images
  let deps ← images.foldlM (fun acc img => do
      let ds ← processImage cfg lines lineFeed st (startLn, endLn) img
      pure (acc ++ ds)) st.deps
  pure ({ st with deps }, endLn)

/-- The outer loop: each iteration processes one logical instruction and
resumes at `endLn + 1`; fuel `lines.length + 1` suffices since the cursor
strictly increases. -/
def extractLoopGo (cfg : ExtractConfig) (lines : List String) (lineFeed : String) :
    Nat → ScanState → Nat → Except Unit (List PackageDependency)
  | 0, st, _ => pure st.deps
  | fuel + 1, st, ln =>
    if ln < lines.length then do
      let r ← scanStep cfg lines lineFeed st ln
      extractLoopGo cfg lines lineFeed fuel r.1 (r.2 + 1)
    else pure st.deps

/-- The `deps` list computed by `extractPackageFile` (lines 260-378). -/
def extractDeps (content : String) (cfg : ExtractConfig) :
    Except Unit (List PackageDependency) :=
  let lineFeed := if strContainsSub content "\r\n" then "\r\n" else "\n"
  let lines := splitLines content
  extractLoopGo cfg lines lineFeed (lines.length + 1) {} 0

/-- `extractPackageFile` (lines 255-385): `null` (`none`) when no descriptors
were collected, otherwise the list. -/
def extractPackageFile (content : String) (cfg : ExtractConfig) :
    Except Unit (Option (List PackageDependency)) :=
  (extractDeps content cfg).map (fun deps => if deps.isEmpty then none else some deps)

/-! ## The template renderer (external collaborator) -/

/-- Modelled from the spec: rendering an auto-replace template (done by the
invoking tool's Handlebars renderer, which is not part of this repository).
The scan substitutes, left to right, exactly the placeholder forms this
manager emits: a variable tag renders to the descriptor's field (empty when
absent) and a conditional block renders to its rendered body when the value
is truthy and to empty text otherwise — "each placeholder rendering to empty
text when the corresponding value is absent". Substituted values are emitted
verbatim, never re-scanned. -/
def renderTemplate (dep : PackageDependency) (t : String) : String :=
  ⟨go (t.data.length + 1) t.data⟩
where
  tagDepName : List Char := "\x7b\x7bdepName\x7d\x7d".data
  tagPackageName : List Char := "\x7b\x7bpackageName\x7d\x7d".data
  tagNewValue : List Char := "\x7b\x7bnewValue\x7d\x7d".data
  tagNewDigest : List Char := "\x7b\x7bnewDigest\x7d\x7d".data
  tagIfValue : List Char := "\x7b\x7b#if newValue\x7d\x7d".data
  tagIfDigest : List Char := "\x7b\x7b#if newDigest\x7d\x7d".data
  tagEndIf : List Char := "\x7b\x7b/if\x7d\x7d".data
  go : Nat → List Char → List Char
    | 0, l => l
    | fuel + 1, l =>
      if tagDepName.isPrefixOf l then
        (dep.depName.getD "").data ++ go fuel (l.drop tagDepName.length)
      else if tagPackageName.isPrefixOf l then
        (dep.packageName.getD "").data ++ go fuel (l.drop tagPackageName.length)
      else if tagNewValue.isPrefixOf l then
        (dep.currentValue.getD "").data ++ go fuel (l.drop tagNewValue.length)
      else if tagNewDigest.isPrefixOf l then
        (dep.currentDigest.getD "").data ++ go fuel (l.drop tagNewDigest.length)
      else if tagIfValue.isPrefixOf l then
        let rest := l.drop tagIfValue.length
        match indexOfSub rest tagEndIf with
        | some i =>
          (if truthy dep.currentValue then go fuel (rest.take i) else []) ++
          go fuel (rest.drop (i + tagEndIf.length))
        | none => go fuel rest
      else if tagIfDigest.isPrefixOf l then
        let rest := l.drop tagIfDigest.length
        match indexOfSub rest tagEndIf with
        | some i =>
          (if truthy dep.currentDigest then go fuel (rest.take i) else []) ++
          go fuel (rest.drop (i + tagEndIf.length))
        | none => go fuel rest
      else
        match l with
        | [] => []
        | c :: rest => c :: go fuel rest

/-- Rendering a descriptor's own template with its own current value and
digest (the round-trip of the spec). -/
def renderDep (dep : PackageDependency) : Option String :=
  dep.autoReplaceStringTemplate.map (renderTemplate dep)

def tagPart : Option String → List Char
  | some t => ':' :: t.data
  | none => []

def digPart : Option String → List Char
  | some g => '@' :: g.data
  | none => []

def RenderInv (name : String) (cv cd : Option String) (c : String)
    (d : PackageDependency) : Prop :=
  d.currentValue = cv ∧ d.currentDigest = cd ∧ d.replaceString = some c ∧
  ((d.autoReplaceStringTemplate = some defaultAutoReplaceTemplate ∧
    d.packageName = none ∧ d.depName = some name) ∨
   (d.autoReplaceStringTemplate = some packageAutoReplaceTemplate ∧
    d.packageName = some name ∧
    ∃ nm, d.depName = some nm ∧ nm.data.length < name.data.length) ∨
   (d.autoReplaceStringTemplate = some packageAutoReplaceTemplate ∧
    (∃ p, d.packageName = some p ∧ p.data.length < name.data.length) ∧
    (∃ nm, d.depName = some nm ∧ nm.data.length < name.data.length)))

/-! ## Helper lemmas -/

theorem expandRepl_id (m b a : List Char) :
    ∀ l : List Char, l.any (· = '$') = false → expandRepl m b a l = l := by
  intro l h
  induction l with
  | nil => rfl
  | cons c rest ih =>
    simp only [List.any_cons, Bool.or_eq_false_iff, decide_eq_false_iff_not] at h
    obtain ⟨hc, hrest⟩ := h
    have hr := ih hrest
    cases rest with
    | nil =>
      rw [expandRepl.eq_def]
      simp [hc]
      exact hr
    | cons d rest2 =>
      rw [expandRepl.eq_def]
      split <;> rename_i heq
      all_goals first
        | (exact List.noConfusion heq)
        | (injection heq with h1 h2; exact absurd h1 hc)
        | (injection heq with h1 h2; subst h1; subst h2; rw [hr])

/-- A fold of resolution steps over variables none of which is declared
leaves the accumulator unchanged. -/
theorem resolve_fold_id (args : List (String × String))
    (argsLines : List (String × (Nat × Nat))) :
    ∀ (l : List (String × String)) (acc : String × List (Nat × Nat)),
      (∀ p ∈ l, lookupStr args p.2 = none) →
      (l.foldl (fun acc p =>
        match lookupStr args p.2 with
        | some v => (jsReplaceFirst acc.1 p.1 v,
                     acc.2 ++ [(lookupStr argsLines p.2).getD (0, 0)])
        | none => acc) acc) = acc := by
  intro l
  induction l with
  | nil => intro acc _; rfl
  | cons p rest ih =>
    intro acc h
    have hp : lookupStr args p.2 = none := h p (List.mem_cons_self p rest)
    have hr : ∀ q ∈ rest, lookupStr args q.2 = none :=
      fun q hq => h q (List.mem_cons_of_mem p hq)
    simp only [List.foldl_cons, hp]
    exact ih acc hr

theorem splitOnChar_ne_nil (sep : Char) : ∀ l : List Char, splitOnChar sep l ≠ [] := by
  intro l
  cases l with
  | nil => simp [splitOnChar]
  | cons c rest =>
    unfold splitOnChar
    split
    · simp
    · cases h : splitOnChar sep rest <;> simp [h]

/-- The first component of a JS split is the run of characters before the
first separator. -/
theorem splitOnChar_head? (sep : Char) :
    ∀ l : List Char, (splitOnChar sep l).head? = some (l.takeWhile (· ≠ sep)) := by
  intro l
  induction l with
  | nil => rfl
  | cons c rest ih =>
    by_cases hc : c = sep
    · subst hc
      simp [splitOnChar, List.takeWhile]
    · unfold splitOnChar
      rw [if_neg hc]
      cases hr : splitOnChar sep rest with
      | nil => exact absurd hr (splitOnChar_ne_nil sep rest)
      | cons h t =>
        rw [hr] at ih
        simp only [List.head?, Option.some_inj] at ih
        simp only [hr, List.head?, List.takeWhile]
        simp [hc, ih]

/-- Splitting at a separator that does not occur in the left part peels the
left part off as the first component. -/
theorem splitOnChar_append_sep (sep : Char) (b : List Char) :
    ∀ a : List Char, a.any (· = sep) = false →
      splitOnChar sep (a ++ sep :: b) = a :: splitOnChar sep b := by
  intro a ha
  induction a with
  | nil => simp [splitOnChar]
  | cons c a2 ih =>
    simp only [List.any_cons, Bool.or_eq_false_iff, decide_eq_false_iff_not] at ha
    obtain ⟨hc, ha2⟩ := ha
    simp only [List.cons_append]
    conv_lhs => rw [splitOnChar]
    rw [if_neg hc, ih ha2]

theorem truthy_isSome {o : Option String} (h : truthy o = true) : o.isSome = true := by
  cases o with
  | none => simp [truthy] at h
  | some s => rfl

theorem strStartsWith_empty_slash (p : String) : strStartsWith "" (p ++ "/") = false := by
  obtain ⟨pd⟩ := p
  show ((pd ++ ['/']).isPrefixOf ([] : List Char)) = false
  cases hpd : pd ++ ['/'] with
  | nil => exact absurd hpd (by simp)
  | cons c cs => rfl

theorem specialPrefixStep_preserves (srs : Bool) (d : PackageDependency) (pfx : String) :
    (specialPrefixStep srs d pfx).skipReason = d.skipReason ∧
    (specialPrefixStep srs d pfx).depName.isSome = d.depName.isSome := by
  unfold specialPrefixStep
  split
  · rename_i h
    cases hd : d.depName with
    | none =>
      rw [hd] at h
      simp only [Option.getD_none] at h
      rw [strStartsWith_empty_slash] at h
      exact absurd h (by simp)
    | some nm => cases srs <;> simp [hd]
  · exact ⟨rfl, rfl⟩

theorem foldPrefix_preserves (srs : Bool) :
    ∀ (l : List String) (d : PackageDependency),
      ((l.foldl (specialPrefixStep srs) d).skipReason = d.skipReason) ∧
      ((l.foldl (specialPrefixStep srs) d).depName.isSome = d.depName.isSome) := by
  intro l
  induction l with
  | nil => exact fun d => ⟨rfl, rfl⟩
  | cons p rest ih =>
    intro d
    simp only [List.foldl_cons]
    obtain ⟨h1, h2⟩ := ih (specialPrefixStep srs d p)
    obtain ⟨g1, g2⟩ := specialPrefixStep_preserves srs d p
    exact ⟨h1.trans g1, h2.trans g2⟩

theorem applySpecialPrefixes_preserves (srs : Bool) (d : PackageDependency) :
    (applySpecialPrefixes srs d).skipReason = d.skipReason ∧
    (applySpecialPrefixes srs d).depName.isSome = d.depName.isSome := by
  unfold applySpecialPrefixes
  split
  · exact foldPrefix_preserves srs specialPrefixes d
  · exact ⟨rfl, rfl⟩

theorem applyReplaceDefaults_preserves (cf : String) (srs : Bool) (d : PackageDependency) :
    (applyReplaceDefaults cf srs d).skipReason = d.skipReason ∧
    (applyReplaceDefaults cf srs d).depName = d.depName := by
  unfold applyReplaceDefaults
  split
  · split <;> exact ⟨rfl, rfl⟩
  · exact ⟨rfl, rfl⟩

theorem applyVersioning_preserves (d : PackageDependency) :
    (applyVersioning d).skipReason = d.skipReason ∧
    (applyVersioning d).depName = d.depName := by
  unfold applyVersioning
  dsimp only
  split <;> split <;> exact ⟨rfl, rfl⟩

theorem applyQuay_preserves (d : PackageDependency) :
    (applyQuay d).skipReason = d.skipReason ∧
    (applyQuay d).depName.isSome = d.depName.isSome := by
  unfold applyQuay
  split
  · rename_i h
    dsimp only
    split
    · exact ⟨rfl, by simp [truthy_isSome h.1]⟩
    · exact ⟨rfl, rfl⟩
  · exact ⟨rfl, rfl⟩

theorem getDepRest_shape (cf : String) (srs : Bool) :
    ((getDepRest cf srs).skipReason = (splitImageParts cf).skipReason) ∧
    ((getDepRest cf srs).depName.isSome = (splitImageParts cf).depName.isSome) := by
  unfold getDepRest
  obtain ⟨q1, q2⟩ := applyQuay_preserves
    (applyVersioning (applySpecialPrefixes srs
      { applyReplaceDefaults cf srs (splitImageParts cf) with
        datasource := some dockerDatasourceId }))
  obtain ⟨v1, v2⟩ := applyVersioning_preserves
    (applySpecialPrefixes srs
      { applyReplaceDefaults cf srs (splitImageParts cf) with
        datasource := some dockerDatasourceId })
  obtain ⟨p1, p2⟩ := applySpecialPrefixes_preserves srs
    { applyReplaceDefaults cf srs (splitImageParts cf) with
      datasource := some dockerDatasourceId }
  obtain ⟨r1, r2⟩ := applyReplaceDefaults_preserves cf srs (splitImageParts cf)
  constructor
  · rw [q1, v1, p1]
    show (applyReplaceDefaults cf srs (splitImageParts cf)).skipReason = _
    rw [r1]
  · rw [q2, v2, p2]
    show (applyReplaceDefaults cf srs (splitImageParts cf)).depName.isSome = _
    rw [r2]


theorem splitImagePartsTail_fields (isVar : Bool) (cleaned : String) :
    (splitImagePartsTail isVar cleaned).depName.isSome = true ∧
    (splitImagePartsTail isVar cleaned).skipReason = none := by
  unfold splitImagePartsTail
  dsimp only
  split <;> split <;> exact ⟨rfl, rfl⟩

theorem splitImageParts_fields (cf : String) :
    (splitImageParts cf = { skipReason := some "contains-variable" }) ∨
    ((splitImageParts cf).depName.isSome = true ∧ (splitImageParts cf).skipReason = none) := by
  unfold splitImageParts
  dsimp only
  split
  · split
    · exact Or.inl rfl
    · exact Or.inr (splitImagePartsTail_fields _ _)
  · exact Or.inr (splitImagePartsTail_fields _ _)

theorem splitImageParts_skip (cf : String)
    (h : strContains ((unwrapDefault cf).getD cf) '$' = true) :
    splitImageParts cf = { skipReason := some "contains-variable" } := by
  have hcf : strContains cf '$' = true := by
    cases hb : strContains cf '$' with
    | true => rfl
    | false =>
      cases hu : unwrapDefault cf with
      | none => rw [hu] at h; simp only [Option.getD_none] at h; rw [hb] at h; exact h.symm ▸ rfl
      | some v =>
        unfold unwrapDefault at hu
        rw [show variableMarker = '$' from rfl, hb] at hu
        simp at hu
  unfold splitImageParts
  rw [show variableMarker = '$' from rfl, hcf]
  dsimp only
  cases hu : unwrapDefault cf with
  | none =>
    rw [hu] at h
    simp only [Option.getD_none] at h
    simp [h]
  | some v =>
    rw [hu] at h
    simp only [Option.getD_some] at h
    simp [h]

theorem getDepRest_xor (cf : String) (srs : Bool) :
    ((getDepRest cf srs).skipReason.isSome = true ∧ (getDepRest cf srs).depName = none) ∨
    ((getDepRest cf srs).skipReason = none ∧ (getDepRest cf srs).depName.isSome = true) := by
  obtain ⟨h1, h2⟩ := getDepRest_shape cf srs
  rcases splitImageParts_fields cf with h | ⟨hn, hs⟩
  · left
    have hnone : (getDepRest cf srs).depName.isSome = false := by rw [h2, h]; rfl
    constructor
    · rw [h1, h]; rfl
    · cases hd : (getDepRest cf srs).depName with
      | none => rfl
      | some x => rw [hd] at hnone; simp at hnone
  · right
    exact ⟨by rw [h1, hs], by rw [h2, hn]⟩

theorem getDepNoAlias_xor (cf : String) (srs : Bool) :
    ((getDepNoAlias cf srs).skipReason.isSome = true ∧ (getDepNoAlias cf srs).depName = none) ∨
    ((getDepNoAlias cf srs).skipReason = none ∧ (getDepNoAlias cf srs).depName.isSome = true) := by
  unfold getDepNoAlias
  split
  · exact Or.inl ⟨rfl, rfl⟩
  · exact getDepRest_xor cf srs

theorem intercalateL_cons_head (s : List Char) (c : Char) (h : List Char)
    (rest : List (List Char)) :
    intercalateL s ((c :: h) :: rest) = c :: intercalateL s (h :: rest) := by
  cases rest with
  | nil => rfl
  | cons x xs => simp [intercalateL]

theorem splitOnChar_join (sep : Char) :
    ∀ l : List Char, intercalateL [sep] (splitOnChar sep l) = l := by
  intro l
  induction l with
  | nil => rfl
  | cons c rest ih =>
    unfold splitOnChar
    by_cases hc : c = sep
    · subst hc
      rw [if_pos rfl]
      cases hr : splitOnChar c rest with
      | nil => exact absurd hr (splitOnChar_ne_nil c rest)
      | cons h t =>
        rw [hr] at ih
        simp [intercalateL, ih]
    · rw [if_neg hc]
      cases hr : splitOnChar sep rest with
      | nil => exact absurd hr (splitOnChar_ne_nil sep rest)
      | cons h t =>
        rw [hr] at ih
        rw [intercalateL_cons_head [sep] c h t, ih]

theorem splitOnChar_eq_one (sep : Char) (l a : List Char)
    (h : splitOnChar sep l = [a]) : l = a := by
  have hj := splitOnChar_join sep l
  rw [h] at hj
  exact hj.symm

theorem splitOnChar_eq_two (sep : Char) (l a b : List Char)
    (h : splitOnChar sep l = [a, b]) : l = a ++ sep :: b := by
  have hj := splitOnChar_join sep l
  rw [h] at hj
  simpa [intercalateL] using hj.symm

theorem intercalateL_concat (s : List Char) :
    ∀ (init : List (List Char)) (z : List Char), init ≠ [] →
      intercalateL s (init ++ [z]) = intercalateL s init ++ s ++ z := by
  intro init
  induction init with
  | nil => intro z h; exact absurd rfl h
  | cons x xs ih =>
    intro z _
    cases xs with
    | nil => simp [intercalateL]
    | cons y ys =>
      have h2 := ih z (by simp)
      show intercalateL s (x :: ((y :: ys) ++ [z])) = _
      rw [show intercalateL s (x :: ((y :: ys) ++ [z])) =
            x ++ s ++ intercalateL s ((y :: ys) ++ [z]) from rfl]
      rw [h2]
      show _ = (x ++ s ++ intercalateL s (y :: ys)) ++ s ++ z
      simp [List.append_assoc]

theorem joinColon_map (xs : List (List Char)) :
    joinColon (xs.map (⟨·⟩)) = ⟨intercalateL [':'] xs⟩ := by
  unfold joinColon
  rw [List.map_map]
  congr 1
  have : (String.data ∘ fun x : List Char => (⟨x⟩ : String)) = id := by
    funext x; rfl
  rw [this, List.map_id]


theorem colon_rule_eval (nt : List Char)
    (ht : (splitOnChar ':' nt).getLastD [] = [] → (splitOnChar ':' nt).length = 1) :
    ((jsSplitChar ⟨nt⟩ ':').length = 1 ||
       strContains ((jsSplitChar (⟨nt⟩ : String) ':').getLastD "") '/') = true ∨
    (((jsSplitChar ⟨nt⟩ ':').length = 1 ||
       strContains ((jsSplitChar (⟨nt⟩ : String) ':').getLastD "") '/') = false ∧
     ((jsSplitChar (⟨nt⟩ : String) ':').getLastD "") ≠ "" ∧
     (joinColon (jsSplitChar (⟨nt⟩ : String) ':').dropLast).data ++
       ':' :: ((jsSplitChar (⟨nt⟩ : String) ':').getLastD "").data = nt) := by
  cases hcond : ((jsSplitChar ⟨nt⟩ ':').length = 1 ||
      strContains ((jsSplitChar (⟨nt⟩ : String) ':').getLastD "") '/') with
  | true => exact Or.inl rfl
  | false =>
    right
    refine ⟨rfl, ?_, ?_⟩
    all_goals {
      have hjs : jsSplitChar (⟨nt⟩ : String) ':' = (splitOnChar ':' nt).map (⟨·⟩) := rfl
      have hlen1 : (jsSplitChar ⟨nt⟩ ':').length ≠ 1 := by
        intro h
        rw [h] at hcond
        simp at hcond
      have hlen : (splitOnChar ':' nt).length ≠ 1 := by
        intro h
        apply hlen1
        rw [hjs, List.length_map, h]
      have hne : splitOnChar ':' nt ≠ [] := splitOnChar_ne_nil ':' nt
      have hlast : (splitOnChar ':' nt).getLastD [] ≠ [] := fun h => hlen (ht h)
      obtain ⟨init, z, hseg⟩ : ∃ init z, splitOnChar ':' nt = init ++ [z] :=
        ⟨(splitOnChar ':' nt).dropLast, (splitOnChar ':' nt).getLast hne,
         (List.dropLast_append_getLast hne).symm⟩
      have hzne : z ≠ [] := by
        intro hz
        apply hlast
        rw [hseg, hz, List.getLastD_concat]
      have hinitne : init ≠ [] := by
        intro hi
        apply hlen
        rw [hseg, hi]
        rfl
      have hmap : jsSplitChar (⟨nt⟩ : String) ':' = init.map (⟨·⟩) ++ [⟨z⟩] := by
        rw [hjs, hseg]
        simp
      have hlastStr : (jsSplitChar (⟨nt⟩ : String) ':').getLastD "" = ⟨z⟩ := by
        rw [hmap, List.getLastD_concat]
      have hdropStr : (jsSplitChar (⟨nt⟩ : String) ':').dropLast = init.map (⟨·⟩) := by
        rw [hmap, List.dropLast_concat]
      have hnt : intercalateL [':'] init ++ ':' :: z = nt := by
        have hj := splitOnChar_join ':' nt
        rw [hseg, intercalateL_concat [':'] init z hinitne] at hj
        rw [← hj]
        simp [List.append_assoc]
      first
        | (rw [hlastStr]
           intro hzeq
           apply hzne
           have : (⟨z⟩ : String).data = ("" : String).data := by rw [hzeq]
           exact this)
        | (rw [hlastStr, hdropStr, joinColon_map]
           exact hnt)
    }


theorem truthy_some_ne (s : String) (h : s ≠ "") : truthy (some s) = true := by
  have : s.isEmpty = false := by
    cases he : s.isEmpty with
    | false => rfl
    | true => exact absurd ((String.isEmpty_iff s).mp he) h
  simp [truthy, this]

theorem mk_ne_empty_of_ne_nil (z : List Char) (h : z ≠ []) : (⟨z⟩ : String) ≠ "" := by
  intro he
  apply h
  have : (⟨z⟩ : String).data = ("" : String).data := by rw [he]
  exact this

set_option maxHeartbeats 1000000 in
theorem tail_eval (isVar : Bool) (c : String)
    (hp : (splitOnChar '@' c.data).length ≤ 2)
    (hd : (splitOnChar '@' c.data).getLastD [] = [] → (splitOnChar '@' c.data).length = 1)
    (ht : (splitOnChar ':' ((splitOnChar '@' c.data).headD [])).getLastD [] = [] →
          (splitOnChar ':' ((splitOnChar '@' c.data).headD [])).length = 1) :
    ∃ (name : String) (cv cd : Option String),
      splitImagePartsTail isVar c =
        { depName := some name, currentValue := cv, currentDigest := cd,
          replaceString := if isVar then some c else none } ∧
      cv ≠ some "" ∧ cd ≠ some "" ∧
      name.data ++ tagPart cv ++ digPart cd = c.data := by
  rcases hparts : splitOnChar '@' c.data with _ | ⟨nt, rest⟩
  · exact absurd hparts (splitOnChar_ne_nil '@' c.data)
  · rcases rest with _ | ⟨dg, rest2⟩
    · -- one component: no digest
      have hc : c.data = nt := splitOnChar_eq_one '@' c.data nt hparts
      have hjs2 : jsSplitChar c '@' = [⟨nt⟩] := by
        rw [show jsSplitChar c '@' = (splitOnChar '@' c.data).map (⟨·⟩) from rfl, hparts]
        rfl
      rw [hparts] at ht
      simp only [List.headD] at ht
      unfold splitImagePartsTail
      rw [hjs2]
      dsimp only [List.headD, List.get?]
      rcases colon_rule_eval nt ht with hcond | ⟨hcond, hzne, hrec⟩
      · rw [hcond]
        refine ⟨⟨nt⟩, none, none, ?_, by simp, by simp, ?_⟩
        · cases isVar <;> simp [truthy]
        · show nt ++ [] ++ [] = c.data
          simp [hc]
      · rw [hcond]
        simp only [Bool.false_eq_true, if_false]
        have htr := truthy_some_ne _ hzne
        refine ⟨joinColon (jsSplitChar ⟨nt⟩ ':').dropLast,
                some ((jsSplitChar (⟨nt⟩ : String) ':').getLastD ""),
                none, ?_, ?_, by simp, ?_⟩
        · have hzne2 : ¬(jsSplitChar (⟨nt⟩ : String) ':').getLast?.getD "" = "" := by
            rw [← List.getLastD_eq_getLast?]
            exact hzne
          cases isVar <;> simp [truthy, String.isEmpty_iff, hzne2]
        · intro hx
          rw [Option.some_inj] at hx
          exact hzne hx
        · show (joinColon (jsSplitChar (⟨nt⟩ : String) ':').dropLast).data ++
            ':' :: ((jsSplitChar (⟨nt⟩ : String) ':').getLastD "").data ++ [] = c.data
          rw [List.append_nil, hc]
          exact hrec
    · rcases rest2 with _ | ⟨x, xs⟩
      · -- two components: digest present
        have hc : c.data = nt ++ '@' :: dg := splitOnChar_eq_two '@' c.data nt dg hparts
        have hjs2 : jsSplitChar c '@' = [⟨nt⟩, ⟨dg⟩] := by
          rw [show jsSplitChar c '@' = (splitOnChar '@' c.data).map (⟨·⟩) from rfl, hparts]
          rfl
        rw [hparts] at ht hd
        simp only [List.headD] at ht
        have hdg : dg ≠ [] := by
          intro hz
          have := hd (by simp [List.getLastD, hz])
          simp at this
        have htrd := truthy_some_ne (⟨dg⟩ : String) (mk_ne_empty_of_ne_nil dg hdg)
        unfold splitImagePartsTail
        rw [hjs2]
        dsimp only [List.headD, List.get?]
        rcases colon_rule_eval nt ht with hcond | ⟨hcond, hzne, hrec⟩
        · rw [hcond]
          refine ⟨⟨nt⟩, none, some ⟨dg⟩, ?_, by simp, ?_, ?_⟩
          · cases isVar <;> simp [truthy, String.isEmpty_iff, mk_ne_empty_of_ne_nil dg hdg]
          · intro hx
            rw [Option.some_inj] at hx
            exact mk_ne_empty_of_ne_nil dg hdg hx
          · show nt ++ [] ++ '@' :: dg = c.data
            simp [hc]
        · rw [hcond]
          simp only [Bool.false_eq_true, if_false]
          have htr := truthy_some_ne _ hzne
          refine ⟨joinColon (jsSplitChar ⟨nt⟩ ':').dropLast,
                  some ((jsSplitChar (⟨nt⟩ : String) ':').getLastD ""), some ⟨dg⟩,
                  ?_, ?_, ?_, ?_⟩
          · have hzne2 : ¬(jsSplitChar (⟨nt⟩ : String) ':').getLast?.getD "" = "" := by
              rw [← List.getLastD_eq_getLast?]
              exact hzne
            cases isVar <;>
              simp [truthy, String.isEmpty_iff, hzne2, mk_ne_empty_of_ne_nil dg hdg]
          · intro hx
            rw [Option.some_inj] at hx
            exact hzne hx
          · intro hx
            rw [Option.some_inj] at hx
            exact mk_ne_empty_of_ne_nil dg hdg hx
          · show (joinColon (jsSplitChar ⟨nt⟩ ':').dropLast).data ++
              ':' :: ((jsSplitChar (⟨nt⟩ : String) ':').getLastD "").data ++ '@' :: dg = c.data
            rw [hc]
            conv_rhs => rw [← hrec]
      · rw [hparts] at hp
        simp at hp


theorem unwrapDefault_some_ne (s v : String) (h : unwrapDefault s = some v) : v ≠ "" := by
  unfold unwrapDefault at h
  split at h
  · cases hm : defaultValueMatch s with
    | none => rw [hm] at h; simp at h
    | some w =>
      rw [hm] at h
      dsimp only at h
      split at h
      · simp at h
      · rename_i hne
        rw [Option.some_inj] at h
        subst h
        intro he
        apply hne
        rw [he]
        rfl
  · simp at h

theorem splitImageParts_cases (s : String) :
    splitImageParts s = { skipReason := some "contains-variable" } ∨
    splitImageParts s =
      splitImagePartsTail (unwrapDefault s).isSome ((unwrapDefault s).getD s) := by
  unfold splitImageParts
  by_cases hm : strContains s variableMarker = true
  · rw [if_pos hm]
    dsimp only
    split
    · exact Or.inl rfl
    · exact Or.inr rfl
  · rw [if_neg hm]
    have hu : unwrapDefault s = none := by
      unfold unwrapDefault
      rw [if_neg hm]
    rw [hu]
    exact Or.inr rfl

/-- The render-relevant state carried through the normalization steps of
`getDepRest` in the round-trip proof: the value, digest and replace string
are fixed, and the template/packageName/depName triple is in one of three
states — untouched, normalized once (packageName holds the original name),
or normalized more than once (packageName strictly shorter than the
original name). -/
theorem indexOfSub_zero (l pat : List Char) (h : pat.isPrefixOf l = true) :
    indexOfSub l pat = some 0 := by
  cases l with
  | nil =>
    cases pat with
    | nil => rfl
    | cons p ps => simp [List.isPrefixOf] at h
  | cons c rest =>
    unfold indexOfSub indexOfSub.go
    rw [if_pos h]

theorem jsReplaceFirst_prefix_shorter (nm pfx : String)
    (h : strStartsWith nm (pfx ++ "/") = true) :
    (jsReplaceFirst nm (pfx ++ "/") "").data.length < nm.data.length := by
  have hpre : (pfx ++ "/").data.isPrefixOf nm.data = true := h
  have hidx := indexOfSub_zero nm.data (pfx ++ "/").data hpre
  have hlen : (pfx ++ "/").data.length ≤ nm.data.length :=
    (List.isPrefixOf_iff_prefix.mp hpre).length_le
  have hpos : 0 < (pfx ++ "/").data.length := by
    obtain ⟨pd⟩ := pfx
    show 0 < (pd ++ ['/']).length
    simp
  show (replaceFirstL nm.data (pfx ++ "/").data "".data).length < nm.data.length
  unfold replaceFirstL
  rw [hidx]
  show (([] : List Char) ++ expandRepl (pfx ++ "/").data [] (nm.data.drop (0 + (pfx ++ "/").data.length)) [] ++ nm.data.drop (0 + (pfx ++ "/").data.length)).length < nm.data.length
  simp only [List.nil_append, expandRepl, List.length_drop]
  omega

theorem specialPrefixStep_inv (name : String) (cv cd : Option String) (c : String)
    (d : PackageDependency) (pfx : String)
    (h : RenderInv name cv cd c d) :
    RenderInv name cv cd c (specialPrefixStep true d pfx) := by
  obtain ⟨h1, h2, h3, hcase⟩ := h
  unfold specialPrefixStep
  split
  · rename_i hfire
    rw [if_pos rfl]
    rcases hcase with ⟨ht, hp, hd⟩ | ⟨ht, hp, nm, hd, hlen⟩ | ⟨ht, ⟨p, hp, hplen⟩, nm, hd, hlen⟩
    · rw [hd] at hfire
      simp only [Option.getD_some] at hfire
      refine ⟨h1, h2, h3, Or.inr (Or.inl ⟨rfl, by simp [hd], ?_⟩)⟩
      refine ⟨jsReplaceFirst name (pfx ++ "/") "", by simp [hd], ?_⟩
      exact jsReplaceFirst_prefix_shorter name pfx hfire
    · rw [hd] at hfire
      simp only [Option.getD_some] at hfire
      refine ⟨h1, h2, h3, Or.inr (Or.inr ⟨rfl, ⟨nm, by simp [hd], hlen⟩, ?_⟩)⟩
      refine ⟨jsReplaceFirst nm (pfx ++ "/") "", by simp [hd], ?_⟩
      exact lt_trans (jsReplaceFirst_prefix_shorter nm pfx hfire) hlen
    · rw [hd] at hfire
      simp only [Option.getD_some] at hfire
      refine ⟨h1, h2, h3, Or.inr (Or.inr ⟨rfl, ⟨nm, by simp [hd], hlen⟩, ?_⟩)⟩
      refine ⟨jsReplaceFirst nm (pfx ++ "/") "", by simp [hd], ?_⟩
      exact lt_trans (jsReplaceFirst_prefix_shorter nm pfx hfire) hlen
  · exact ⟨h1, h2, h3, hcase⟩

theorem foldPrefix_inv (name : String) (cv cd : Option String) (c : String) :
    ∀ (l : List String) (d : PackageDependency), RenderInv name cv cd c d →
      RenderInv name cv cd c (l.foldl (specialPrefixStep true) d) := by
  intro l
  induction l with
  | nil => exact fun d h => h
  | cons p rest ih =>
    intro d h
    simp only [List.foldl_cons]
    exact ih _ (specialPrefixStep_inv name cv cd c d p h)

theorem applySpecialPrefixes_inv (name : String) (cv cd : Option String) (c : String)
    (d : PackageDependency) (h : RenderInv name cv cd c d) :
    RenderInv name cv cd c (applySpecialPrefixes true d) := by
  unfold applySpecialPrefixes
  split
  · exact foldPrefix_inv name cv cd c specialPrefixes d h
  · exact h

theorem applyVersioning_only (d : PackageDependency) :
    ∃ v, applyVersioning d = { d with versioning := v } := by
  unfold applyVersioning
  dsimp only
  split <;> split <;> exact ⟨_, rfl⟩

theorem applyVersioning_inv (name : String) (cv cd : Option String) (c : String)
    (d : PackageDependency) (h : RenderInv name cv cd c d) :
    RenderInv name cv cd c (applyVersioning d) := by
  obtain ⟨v, hv⟩ := applyVersioning_only d
  rw [hv]
  exact h


theorem renderTemplate_default (d : PackageDependency) :
    renderTemplate d defaultAutoReplaceTemplate =
      ⟨(d.depName.getD "").data ++
        ((if truthy d.currentValue then ':' :: ((d.currentValue.getD "").data ++ []) else []) ++
         ((if truthy d.currentDigest then '@' :: ((d.currentDigest.getD "").data ++ []) else []) ++ []))⟩ := rfl

theorem renderTemplate_package (d : PackageDependency) :
    renderTemplate d packageAutoReplaceTemplate =
      ⟨(d.packageName.getD "").data ++
        ((if truthy d.currentValue then ':' :: ((d.currentValue.getD "").data ++ []) else []) ++
         ((if truthy d.currentDigest then '@' :: ((d.currentDigest.getD "").data ++ []) else []) ++ []))⟩ := rfl

theorem truthy_branch_tag (cv : Option String) (h : cv ≠ some "") :
    (if truthy cv = true then ':' :: ((cv.getD "").data ++ []) else []) =
      (match cv with | some t => ':' :: t.data | none => ([] : List Char)) := by
  cases cv with
  | none => rfl
  | some t =>
    have ht : t ≠ "" := fun het => h (by rw [het])
    rw [if_pos (truthy_some_ne t ht)]
    simp

theorem truthy_branch_dig (cd : Option String) (h : cd ≠ some "") :
    (if truthy cd = true then '@' :: ((cd.getD "").data ++ []) else []) =
      (match cd with | some g => '@' :: g.data | none => ([] : List Char)) := by
  cases cd with
  | none => rfl
  | some g =>
    have hg : g ≠ "" := fun heg => h (by rw [heg])
    rw [if_pos (truthy_some_ne g hg)]
    simp

theorem render_roundtrip_final (d : PackageDependency) (name : String)
    (cv cd : Option String) (c : String)
    (hcv : d.currentValue = cv) (hcd : d.currentDigest = cd)
    (hrs : d.replaceString = some c)
    (hcvne : cv ≠ some "") (hcdne : cd ≠ some "")
    (hrecon : name.data ++ tagPart cv ++ digPart cd = c.data)
    (hT : (d.autoReplaceStringTemplate = some defaultAutoReplaceTemplate ∧
            d.depName = some name) ∨
          (d.autoReplaceStringTemplate = some packageAutoReplaceTemplate ∧
            d.packageName = some name)) :
    renderDep d = d.replaceString := by
  rcases hT with ⟨ht, hn⟩ | ⟨ht, hn⟩ <;> {
    unfold renderDep
    rw [ht, hrs, Option.map_some']
    congr 1
    first
      | rw [renderTemplate_default d]
      | rw [renderTemplate_package d]
    apply String.ext
    show _ ++ _ = c.data
    rw [hn]
    simp only [Option.getD_some]
    rw [hcv, hcd, truthy_branch_tag cv hcvne, truthy_branch_dig cd hcdne]
    rw [← hrecon]
    cases cv <;> cases cd <;> simp [tagPart, digPart, List.append_assoc]
  }

/-! ## Claims -/

/-- **C9.** For the input `FROM alpine:3.18` with no preceding target header,
extraction produces exactly one descriptor with `depName` "alpine",
`currentValue` "3.18", the docker datasource identifier, and `depType`
"base" (the default used before any target header). -/
theorem C9_simple_from :
    extractPackageFile "FROM alpine:3.18" {} = Except.ok (some
      [{ depName := some "alpine", currentValue := some "3.18",
         replaceString := some "alpine:3.18",
         autoReplaceStringTemplate := some defaultAutoReplaceTemplate,
         datasource := some dockerDatasourceId, depType := some "base" }]) := rfl

/-- **C8.** A resolved candidate equal to the literal token `scratch`
produces no descriptor and no error, whatever the surrounding state; and on
an input whose only reference is `FROM scratch`, `extractPackageFile`
returns null. -/
theorem C8_scratch_skipped :
    (∀ (cfg : ExtractConfig) (lines : List String) (lineFeed : String)
       (st : ScanState) (r : Nat × Nat),
        processImage cfg lines lineFeed st r "scratch" = Except.ok []) ∧
    extractPackageFile "FROM scratch" {} = Except.ok none := by
  exact ⟨fun cfg lines lineFeed st r => rfl, rfl⟩

/-- **C7.** The claim says extraction never throws; but on an input whose
trailing continuation marker sits on the last line of the file, the fold
loop pushes the line cursor past the end of `lines` and
`lines[lineNumber].includes(...)` inside `processDepForAutoReplace` is a
TypeError on `undefined` — modelled as `Except.error ()`. -/
theorem C7_crash_on_trailing_continuation :
    extractPackageFile "FROM alpine:3.18 \\" {} = Except.error () := rfl

/-- **C4 counterexample.** On `ARG BASE=golang:1.20\nFROM ${BASE}` the single
descriptor's `replaceString` is the `ARG` line followed by the line feed,
and does not span (or even contain) the `FROM` line, contrary to the claim. -/
theorem C4_counterexample :
    (extractDeps "ARG BASE=golang:1.20\nFROM ${BASE}" {}).map
        (List.map (fun d => d.replaceString)) =
      Except.ok [some "ARG BASE=golang:1.20\n"] ∧
    strContainsSub "ARG BASE=golang:1.20\n" "FROM ${BASE}" = false := ⟨rfl, rfl⟩

/-- **C4 (amended).** `ARG BASE=golang:1.20\nFROM ${BASE}` produces exactly
one descriptor with `depName` "golang" and `currentValue` "1.20", whose
`replaceString` is the `ARG` line followed by one line terminator: the
synthesizer keeps only the contributing ranges whose lines contain the
literal value, and the `FROM` line does not contain it. -/
theorem C4_arg_from_extraction :
    extractPackageFile "ARG BASE=golang:1.20\nFROM ${BASE}" {} = Except.ok (some
      [{ depName := some "golang", currentValue := some "1.20",
         replaceString := some "ARG BASE=golang:1.20\n",
         autoReplaceStringTemplate := some
           ("ARG BASE=golang:" ++ newValuePlaceholder ++ newDigestAppendPlaceholder ++ "\n"),
         datasource := some dockerDatasourceId, depType := some "base" }]) := rfl

/-- **C5 counterexample.** With `A` declared as `alpine`, the candidate
`$A/$A` (the same resolvable token twice) resolves to `alpine/$A`: only the
first occurrence is substituted (JS `String.replace` with a string pattern),
and the resolved string still contains the token — the claim's "every
occurrence of that exact full-match text is replaced" fails. -/
theorem C5_counterexample :
    (resolveImage [("A", "alpine")] [("A", (0, 0))] (1, 1) "$A/$A").1 = "alpine/$A" ∧
    strContainsSub "alpine/$A" "$A" = true ∧
    ("alpine/$A" : String) ≠ "alpine/alpine" := ⟨rfl, rfl, by decide⟩

/-- **C5 (amended).** Only the *first* occurrence of a resolvable variable
token is replaced: for any declaration value `v` without the marker, the
candidate `$A/$A` (the same token twice) resolves to `v ++ "/$A"` — the
second occurrence is left unchanged. -/
theorem C5_first_occurrence_amended :
    ∀ (v : String), strContains v '$' = false →
      (resolveImage [("A", v)] [("A", (0, 0))] (1, 1) "$A/$A").1 = v ++ "/$A" := by
  intro v hv
  obtain ⟨vd⟩ := v
  show String.mk ([] ++ expandRepl "$A".data [] "/$A".data vd ++ "/$A".data) = ⟨vd⟩ ++ "/$A"
  rw [expandRepl_id _ _ _ vd hv]
  rfl

/-- **C5 witness.** The amended statement at `v = "alpine"`. -/
theorem C5_witness :
    (resolveImage [("A", "alpine")] [("A", (0, 0))] (1, 1) "$A/$A").1 = "alpine" ++ "/$A" :=
  C5_first_occurrence_amended "alpine" (by decide)

/-- **C6 counterexample.** `splitImageParts "x@b@c"`: the digest is `"b"`
(the segment after the *first* `@`) and the remainder is `"x"`, not the
claim's last-`@` split (digest `"c"`, remainder `"x@b"`). -/
theorem C6_counterexample :
    (splitImageParts "x@b@c").currentDigest = some "b" ∧
    (splitImageParts "x@b@c").depName = some "x" ∧
    ("b" : String) ≠ "c" ∧ ("x" : String) ≠ "x@b" :=
  ⟨rfl, rfl, by decide, by decide⟩

/-- **C6 (amended).** The builder splits on the *first* `@`: for a remainder
`a` (itself `@`-free) and any tail `b`, the digest of `a@b` is the run of
`b` before *its* first `@` (text after a second `@` is discarded), and the
name/tag follow the colon rule on `a`: the final colon segment is the tag
unless it contains `/` or there was only one segment, in which case the
whole remainder is the name and there is no tag. -/
theorem C6_split_amended :
    ∀ (a b : String),
      strContains a '@' = false → strContains a '$' = false → strContains b '$' = false →
      (splitImageParts (a ++ "@" ++ b)).currentDigest = some ⟨b.data.takeWhile (· ≠ '@')⟩ ∧
      (splitImageParts (a ++ "@" ++ b)).depName =
        (if (jsSplitChar a ':').length = 1 || strContains ((jsSplitChar a ':').getLastD "") '/'
         then some a else some (joinColon (jsSplitChar a ':').dropLast)) ∧
      (splitImageParts (a ++ "@" ++ b)).currentValue =
        (if (jsSplitChar a ':').length = 1 || strContains ((jsSplitChar a ':').getLastD "") '/'
         then none else some ((jsSplitChar a ':').getLastD "")) := by
  intro a b hat ha hb
  obtain ⟨ad⟩ := a
  obtain ⟨bd⟩ := b
  have hdollar : strContains ((⟨ad⟩ : String) ++ "@" ++ (⟨bd⟩ : String)) '$' = false := by
    show ((ad ++ ['@']) ++ bd).any (· = '$') = false
    have h1 : ad.any (· = '$') = false := ha
    have h2 : bd.any (· = '$') = false := hb
    simp only [List.any_append, h1, h2]
    rfl
  have hsplit : jsSplitChar ((⟨ad⟩ : String) ++ "@" ++ (⟨bd⟩ : String)) '@' =
      (⟨ad⟩ : String) :: (splitOnChar '@' bd).map (⟨·⟩) := by
    unfold jsSplitChar
    have hdata : (((⟨ad⟩ : String) ++ "@" ++ (⟨bd⟩ : String)) : String).data = ad ++ '@' :: bd := by
      show (ad ++ ['@']) ++ bd = ad ++ '@' :: bd
      simp
    rw [hdata, splitOnChar_append_sep '@' bd ad hat]
    rfl
  have hget1 : (splitOnChar '@' bd)[0]? = some (List.takeWhile (fun x => !decide (x = '@')) bd) := by
    rw [← List.get?_eq_getElem?, List.get?_zero, splitOnChar_head? '@' bd]
    simp [decide_not]
  simp only [splitImageParts, variableMarker, hdollar, Bool.false_eq_true, if_false]
  simp only [splitImagePartsTail, hsplit, Bool.false_eq_true, if_false]
  simp only [List.headD, List.get?]
  refine ⟨?_, ?_, ?_⟩ <;> split <;> rename_i hc <;> simp [hget1, hc]

/-- **C6 witness.** The amended statement at `a = "x"`, `b = "b@c"`. -/
theorem C6_witness :
    (splitImageParts ("x" ++ "@" ++ "b@c")).currentDigest =
      some ⟨"b@c".data.takeWhile (· ≠ '@')⟩ ∧
    (splitImageParts ("x" ++ "@" ++ "b@c")).depName =
      (if (jsSplitChar "x" ':').length = 1 || strContains ((jsSplitChar "x" ':').getLastD "") '/'
       then some "x" else some (joinColon (jsSplitChar "x" ':').dropLast)) ∧
    (splitImageParts ("x" ++ "@" ++ "b@c")).currentValue =
      (if (jsSplitChar "x" ':').length = 1 || strContains ((jsSplitChar "x" ':').getLastD "") '/'
       then none else some ((jsSplitChar "x" ':').getLastD "")) :=
  C6_split_amended "x" "b@c" (by decide) (by decide) (by decide)

/-- **C3 counterexample.** With registry alias `docker.io → mirror.local`,
the candidate `$JUNK-docker.io/img` still contains the variable marker after
all substitutions, yet its descriptor carries a usable `depName` and no
`skipReason`: the alias regex is unanchored, so the `$JUNK-` prefix before
the match is simply discarded. -/
theorem C3_counterexample :
    extractPackageFile "FROM $JUNK-docker.io/img"
        { registryAliases := [("docker.io", "mirror.local")] } =
      Except.ok (some
        [{ depName := some "mirror.local/img",
           replaceString := some "$JUNK-docker.io/img",
           autoReplaceStringTemplate := some "$JUNK-docker.io/img",
           datasource := some dockerDatasourceId, depType := some "base" }]) ∧
    strContains "$JUNK-docker.io/img" '$' = true := ⟨rfl, rfl⟩

/-- **C3 (amended).** (a) When no registry alias matches the reference and
the reference is not whitespace-only, a candidate still containing the
variable marker after the `${...:-value}` unwrap is skipped with reason
contains-variable and carries no `depName`. (b) In general every descriptor
produced by `getDep` has exactly one of `skipReason` or `depName` present
(the `depName` may be present but empty for degenerate references such as
`@digest`). -/
theorem C3_skip_invariant_amended :
    (∀ (cf : String) (srs : Bool) (aliases : List (String × String)),
       firstAliasMatch aliases cf = none →
       jsIsEmptyOrWhitespace cf = false →
       strContains ((unwrapDefault cf).getD cf) '$' = true →
       (getDep cf srs aliases).skipReason = some "contains-variable" ∧
       (getDep cf srs aliases).depName = none) ∧
    (∀ (cf : String) (srs : Bool) (aliases : List (String × String)),
       ((getDep cf srs aliases).skipReason.isSome = true ∧
        (getDep cf srs aliases).depName = none) ∨
       ((getDep cf srs aliases).skipReason = none ∧
        (getDep cf srs aliases).depName.isSome = true)) := by
  constructor
  · intro cf srs aliases hal hws hcl
    have hskip := splitImageParts_skip cf hcl
    obtain ⟨h1, h2⟩ := getDepRest_shape cf srs
    unfold getDep
    rw [hws, hal]
    simp only [Bool.false_eq_true, if_false]
    constructor
    · rw [h1, hskip]
    · have hnone : (getDepRest cf srs).depName.isSome = false := by rw [h2, hskip]; rfl
      cases hd : (getDepRest cf srs).depName with
      | none => rfl
      | some x => rw [hd] at hnone; simp at hnone
  · intro cf srs aliases
    unfold getDep
    split
    · exact Or.inl ⟨rfl, rfl⟩
    · cases hal : firstAliasMatch aliases cf with
      | none => exact getDepRest_xor cf srs
      | some p =>
        rcases getDepNoAlias_xor (p.1 ++ "/" ++ p.2) true with ⟨hs, hd⟩ | ⟨hs, hd⟩
        · exact Or.inl ⟨by exact hs, by exact hd⟩
        · exact Or.inr ⟨by exact hs, by exact hd⟩

/-- **C3 witness.** Part (a) at the spec's own example `$REGISTRY/alpine`. -/
theorem C3_witness :
    (getDep "$REGISTRY/alpine" true []).skipReason = some "contains-variable" ∧
    (getDep "$REGISTRY/alpine" true []).depName = none :=
  C3_skip_invariant_amended.1 "$REGISTRY/alpine" true [] rfl (by decide) (by decide)


/-- **C10.** Variable resolution only consults declarations already in the
tables: (a) a candidate none of whose variable tokens has a declaration is
left unchanged by resolution; (b) end to end, when the only declaration of
`BASE` sits on the logical line after the `FROM` that references it, the
reference is not substituted and is emitted skipped with reason
contains-variable and no `depName`. -/
theorem C10_later_declaration_not_consulted :
    (∀ (args : List (String × String)) (argsLines : List (String × (Nat × Nat)))
       (r : Nat × Nat) (image : String),
        (∀ p ∈ extractVariables image, lookupStr args p.2 = none) →
        resolveImage args argsLines r image = (image, [r])) ∧
    extractPackageFile "FROM ${BASE}\nARG BASE=alpine:3.18" {} = Except.ok (some
      [{ replaceString := some "${BASE}",
         autoReplaceStringTemplate := some defaultAutoReplaceTemplate,
         datasource := some dockerDatasourceId, depType := some "base",
         skipReason := some "contains-variable" }]) := by
  constructor
  · intro args argsLines r image h
    unfold resolveImage
    split
    · exact resolve_fold_id args argsLines (extractVariables image) (image, [r]) h
    · rfl
  · rfl

/-- **C10 witness.** Part (a) applied to the token `${BASE}` with an empty
declaration table. -/
theorem C10_witness :
    resolveImage [] [] (0, 0) "${BASE}" = ("${BASE}", [(0, 0)]) :=
  C10_later_declaration_not_consulted.1 [] [] (0, 0) "${BASE}" (by decide)

/-- **C2.** For every input and alias map: the extractor returns null
(`none`) exactly when the computed descriptor list is empty, and a non-null
result is the (necessarily nonempty) descriptor list — never an empty
list. -/
theorem C2_null_iff_no_deps :
    ∀ (content : String) (cfg : ExtractConfig),
      (extractPackageFile content cfg = Except.ok none ↔
        extractDeps content cfg = Except.ok []) ∧
      (∀ l, extractPackageFile content cfg = Except.ok (some l) →
        l ≠ [] ∧ extractDeps content cfg = Except.ok l) := by
  intro content cfg
  unfold extractPackageFile
  cases h : extractDeps content cfg with
  | error e =>
    cases e
    constructor
    · constructor <;> intro hx <;> simp [Except.map] at hx
    · intro l hx; simp [Except.map] at hx
  | ok deps =>
    constructor
    · simp only [Except.map]
      constructor
      · intro hx
        by_cases hd : deps.isEmpty
        · simpa [List.isEmpty_iff] using hd
        · simp [hd] at hx
      · intro hx
        obtain rfl : deps = [] := by simpa using hx
        simp
    · intro l hx
      simp only [Except.map] at hx
      by_cases hd : deps.isEmpty
      · simp [hd] at hx
      · obtain rfl : deps = l := by simpa [hd] using hx
        exact ⟨fun hnil => hd (by simp [hnil]), rfl⟩

/-- **C2 witness.** The non-null branch at `FROM alpine:3.18`. -/
theorem C2_witness :
    [({ depName := some "alpine", currentValue := some "3.18",
        replaceString := some "alpine:3.18",
        autoReplaceStringTemplate := some defaultAutoReplaceTemplate,
        datasource := some dockerDatasourceId,
        depType := some "base" } : PackageDependency)] ≠ [] ∧
    extractDeps "FROM alpine:3.18" {} = Except.ok
      [{ depName := some "alpine", currentValue := some "3.18",
         replaceString := some "alpine:3.18",
         autoReplaceStringTemplate := some defaultAutoReplaceTemplate,
         datasource := some dockerDatasourceId, depType := some "base" }] :=
  (C2_null_iff_no_deps "FROM alpine:3.18" {}).2 _ (by rfl)

set_option maxHeartbeats 1000000 in
/-- **C1 (amended).** The round-trip law holds for the descriptor
constructed by `getDep` (with `specifyReplaceString` set, as the image
processor calls it; this is the stage before the multi-line span
synthesizer) whenever no registry alias matches the reference and the
reference sits in the no-surprise fragment: its cleaned form (after
unwrapping a `${...:-value}` default) splits into at most two
`@`-segments with nonempty digest and tag segments when present, the
descriptor is not skipped, and its `packageName` is absent or equal to
the parsed name (i.e. at most one name normalisation fired). Then
rendering its own template with its own `currentValue`/`currentDigest`
reproduces `replaceString` exactly. (When an alias does match, the
alias branch instead synthesizes the template textually out of
`replaceString` via `getAutoReplaceTemplate`, and the law can fail even
on such references, e.g. when the digest equals the literal placeholder
text `newValue`.) -/
theorem C1_roundtrip_amended :
    ∀ (s : String) (ras : List (String × String)),
      firstAliasMatch ras s = none →
      (getDep s true ras).skipReason = none →
      (splitOnChar '@' ((unwrapDefault s).getD s).data).length ≤ 2 →
      ((splitOnChar '@' ((unwrapDefault s).getD s).data).getLastD [] = [] →
        (splitOnChar '@' ((unwrapDefault s).getD s).data).length = 1) →
      ((splitOnChar ':'
          ((splitOnChar '@' ((unwrapDefault s).getD s).data).headD [])).getLastD [] = [] →
        (splitOnChar ':'
          ((splitOnChar '@' ((unwrapDefault s).getD s).data).headD [])).length = 1) →
      ((getDep s true ras).packageName = none ∨
        (getDep s true ras).packageName = (splitImageParts s).depName) →
      renderDep (getDep s true ras) = (getDep s true ras).replaceString := by
  intro s ras hal hsk hp hd ht hpkg
  have hinv : jsIsEmptyOrWhitespace s = false := by
    cases hB : jsIsEmptyOrWhitespace s with
    | false => rfl
    | true =>
      unfold getDep at hsk
      rw [hB] at hsk
      simp at hsk
  have hgd : getDep s true ras = getDepRest s true := by
    unfold getDep
    rw [hinv, hal]
    rfl
  rw [hgd] at hsk hpkg ⊢
  have hshape := getDepRest_shape s true
  have hsipnone : (splitImageParts s).skipReason = none := by
    rw [← hshape.1]; exact hsk
  rcases splitImageParts_cases s with hskipc | htail
  · rw [hskipc] at hsipnone; simp at hsipnone
  obtain ⟨name, cv, cd, htaileq, hcvne, hcdne, hrecon⟩ :=
    tail_eval (unwrapDefault s).isSome ((unwrapDefault s).getD s) hp hd ht
  have hsip : splitImageParts s =
      { depName := some name, currentValue := cv, currentDigest := cd,
        replaceString := if (unwrapDefault s).isSome then
          some ((unwrapDefault s).getD s) else none } := htail.trans htaileq
  have hdep1 : applyReplaceDefaults s true (splitImageParts s) =
      { depName := some name, currentValue := cv, currentDigest := cd,
        replaceString := some ((unwrapDefault s).getD s),
        autoReplaceStringTemplate := some defaultAutoReplaceTemplate } := by
    rw [hsip]
    cases hu : unwrapDefault s with
    | none =>
      unfold applyReplaceDefaults
      simp [truthy]
    | some v =>
      have hv := unwrapDefault_some_ne s v hu
      have hvempty : v.isEmpty = false := by
        rw [Bool.eq_false_iff]
        intro h
        exact hv ((String.isEmpty_iff v).mp h)
      unfold applyReplaceDefaults
      simp [truthy, hvempty]
  have hchain : getDepRest s true = applyQuay (applyVersioning (applySpecialPrefixes true
      { applyReplaceDefaults s true (splitImageParts s) with
        datasource := some dockerDatasourceId })) := rfl
  have hinv0 : RenderInv name cv cd ((unwrapDefault s).getD s)
      { applyReplaceDefaults s true (splitImageParts s) with
        datasource := some dockerDatasourceId } := by
    rw [hdep1]
    exact ⟨rfl, rfl, rfl, Or.inl ⟨rfl, rfl, rfl⟩⟩
  have hinv2 := applyVersioning_inv name cv cd _ _
    (applySpecialPrefixes_inv name cv cd _ _ hinv0)
  rw [hchain] at hpkg ⊢
  have hsipname : (splitImageParts s).depName = some name := by rw [hsip]
  rw [hsipname] at hpkg
  revert hpkg
  generalize hD : applyVersioning (applySpecialPrefixes true
      { applyReplaceDefaults s true (splitImageParts s) with
        datasource := some dockerDatasourceId }) = d4
  rw [hD] at hinv2
  intro hpkg
  obtain ⟨g1, g2, g3, gcase⟩ := hinv2
  have hnofire : applyQuay d4 = d4 →
      renderDep (applyQuay d4) = (applyQuay d4).replaceString := by
    intro hQ
    rw [hQ] at hpkg ⊢
    rcases gcase with ⟨ht2, hpn, hdn⟩ | ⟨ht2, hpn, nm, hdn, hlen⟩ |
      ⟨ht2, ⟨p, hpn, hplen⟩, rest⟩
    · exact render_roundtrip_final d4 name cv cd _ g1 g2 g3 hcvne hcdne hrecon
        (Or.inl ⟨ht2, hdn⟩)
    · exact render_roundtrip_final d4 name cv cd _ g1 g2 g3 hcvne hcdne hrecon
        (Or.inr ⟨ht2, hpn⟩)
    · rw [hpn] at hpkg
      rcases hpkg with h | h
      · simp at h
      · rw [Option.some_inj] at h
        rw [h] at hplen
        exact absurd hplen (lt_irrefl _)
  by_cases hq : (truthy d4.depName = true ∧
      (quayMatchLen (d4.depName.getD "")).isSome = true)
  · by_cases hch : quayReplace (d4.depName.getD "") ≠ d4.depName.getD ""
    · have hqr : applyQuay d4 =
          { d4 with packageName := d4.depName,
                    depName := some (quayReplace (d4.depName.getD "")),
                    autoReplaceStringTemplate := some packageAutoReplaceTemplate } := by
        unfold applyQuay
        rw [if_pos hq]
        dsimp only
        rw [if_pos hch]
      rw [hqr] at hpkg ⊢
      rcases gcase with ⟨ht2, hpn, hdn⟩ | ⟨ht2, hpn, nm, hdn, hlen⟩ |
        ⟨ht2, ⟨p, hpn, hplen⟩, nm, hdn, hlen⟩
      · exact render_roundtrip_final
          { d4 with packageName := d4.depName,
                    depName := some (quayReplace (d4.depName.getD "")),
                    autoReplaceStringTemplate := some packageAutoReplaceTemplate }
          name cv cd _ g1 g2 g3 hcvne hcdne hrecon (Or.inr ⟨rfl, hdn⟩)
      · have h2 : d4.depName = none ∨ d4.depName = some name := hpkg
        rw [hdn] at h2
        rcases h2 with h | h
        · exact absurd h (by simp)
        · rw [Option.some_inj] at h
          rw [h] at hlen
          exact absurd hlen (lt_irrefl _)
      · have h2 : d4.depName = none ∨ d4.depName = some name := hpkg
        rw [hdn] at h2
        rcases h2 with h | h
        · exact absurd h (by simp)
        · rw [Option.some_inj] at h
          rw [h] at hlen
          exact absurd hlen (lt_irrefl _)
    · refine hnofire ?_
      unfold applyQuay
      rw [if_pos hq]
      dsimp only
      rw [if_neg hch]
  · refine hnofire ?_
    unfold applyQuay
    rw [if_neg hq]


/-- **C1 counterexample.** On `FROM x@b@c` the single descriptor renders to
`x@b` (name `x`, digest `b`) while its `replaceString` is the original
`x@b@c`: the text after the second `@` is dropped by the split, so the
claimed round-trip law fails on descriptors produced by extraction. -/
theorem C1_counterexample :
    (extractDeps "FROM x@b@c" {}).map
        (List.map (fun d => (renderDep d, d.replaceString))) =
      Except.ok [(some "x@b", some "x@b@c")] ∧
    (some ("x@b" : String) : Option String) ≠ some "x@b@c" :=
  ⟨rfl, by decide⟩

/-- **C1 witness.** The amended theorem applied at the reference
`alpine:3.18`, every hypothesis discharged by evaluation. -/
theorem C1_witness :
    (firstAliasMatch [] "alpine:3.18" = none ∧
     (getDep "alpine:3.18" true []).skipReason = none ∧
     (splitOnChar '@' ((unwrapDefault "alpine:3.18").getD "alpine:3.18").data).length ≤ 2 ∧
     ((splitOnChar '@'
         ((unwrapDefault "alpine:3.18").getD "alpine:3.18").data).getLastD [] = [] →
       (splitOnChar '@'
         ((unwrapDefault "alpine:3.18").getD "alpine:3.18").data).length = 1) ∧
     ((splitOnChar ':' ((splitOnChar '@'
         ((unwrapDefault "alpine:3.18").getD "alpine:3.18").data).headD [])).getLastD [] = [] →
       (splitOnChar ':' ((splitOnChar '@'
         ((unwrapDefault "alpine:3.18").getD "alpine:3.18").data).headD [])).length = 1) ∧
     ((getDep "alpine:3.18" true []).packageName = none ∨
       (getDep "alpine:3.18" true []).packageName =
         (splitImageParts "alpine:3.18").depName)) ∧
    renderDep (getDep "alpine:3.18" true []) =
      (getDep "alpine:3.18" true []).replaceString :=
  ⟨⟨rfl, by decide, by decide, by decide, by decide, Or.inl (by decide)⟩,
   C1_roundtrip_amended "alpine:3.18" [] rfl (by decide) (by decide) (by decide)
     (by decide) (Or.inl (by decide))⟩

end Earthfile
